import Mathlib

/-!
# wanikaniapi: spaced repetition systems

A shallow embedding of `spaced_repetition_system.go` (the two exported
operations `SpacedRepetitionSystemGet` / `SpacedRepetitionSystemList` and the
query encoder `SpacedRepetitionSystemListParams.EncodeToQuery`) together with
the pieces of the Go standard library they run through (`strconv.Itoa`,
`url.Values.Add`, `url.Values.Encode`, `url.QueryEscape`, `url.QueryUnescape`,
`url.ParseQuery`).

Go strings are byte sequences, so they are modelled as lists of bytes.
-/

namespace Wanikaniapi

/-! ## Go strings -/

/-- A byte. -/
abbrev Byte := Fin 256

/-- A Go `string`: an immutable sequence of bytes. -/
abbrev GoString := List Byte

/-- UTF-8 encoding of one code point (used only to read string literals). -/
def utf8EncodeRune (n : Nat) : GoString :=
  if n < 0x80 then [Fin.ofNat n]
  else if n < 0x800 then [Fin.ofNat (0xC0 + n / 64), Fin.ofNat (0x80 + n % 64)]
  else if n < 0x10000 then
    [Fin.ofNat (0xE0 + n / 4096), Fin.ofNat (0x80 + n / 64 % 64), Fin.ofNat (0x80 + n % 64)]
  else
    [Fin.ofNat (0xF0 + n / 262144), Fin.ofNat (0x80 + n / 4096 % 64),
      Fin.ofNat (0x80 + n / 64 % 64), Fin.ofNat (0x80 + n % 64)]

/-- The Go string written by a source literal. -/
def str (s : String) : GoString := s.data.flatMap (fun c => utf8EncodeRune c.toNat)

/-- The byte of an ASCII character literal. -/
def ch (c : Char) : Byte := Fin.ofNat c.toNat

/-- Bytewise lexicographic order on strings (Go's `<=` on strings, used by `slices.Sort`). -/
def strLe : GoString → GoString → Bool
  | [], _ => true
  | _ :: _, [] => false
  | a :: s, b :: t => if a < b then true else if b < a then false else strLe s t

/-! ## strconv.Itoa -/

/-- The ASCII digit for `d`. -/
def digitByte (d : Nat) : Byte := Fin.ofNat (48 + d % 10)

/-- Digits of `n`, most significant first, prepended to `acc` (the loop of
`strconv.formatBits` for base 10, which fills its buffer from the right). -/
def formatDigits : Nat → Nat → GoString → GoString
  | 0, _, acc => acc
  | fuel + 1, n, acc =>
    if n < 10 then digitByte n :: acc
    else formatDigits fuel (n / 10) (digitByte (n % 10) :: acc)

/-- The function `strconv.Itoa`: decimal rendering, with a leading `-` for negative numbers. -/
def Itoa (i : Int) : GoString :=
  if i < 0 then ch '-' :: formatDigits (i.natAbs + 1) i.natAbs []
  else formatDigits (i.natAbs + 1) i.natAbs []

/-- Reads an unsigned decimal numeral; `none` unless every byte is an ASCII digit. -/
def decimalNat : GoString → Nat → Option Nat
  | [], acc => some acc
  | c :: s, acc =>
    if 48 ≤ c.val ∧ c.val ≤ 57 then decimalNat s (acc * 10 + (c.val - 48)) else none

/-- The integer denoted by a decimal numeral with an optional leading `-`
(the reading of a decimal rendering, used to state what `Itoa` produces). -/
def decimalValue (s : GoString) : Option Int :=
  match s with
  | [] => none
  | c :: t =>
    if c = ch '-' then
      (if t = [] then none else (decimalNat t 0).map (fun (n : Nat) => - Int.ofNat n))
    else (decimalNat s 0).map (fun (n : Nat) => Int.ofNat n)

/-! ## net/url escaping -/

/-- The function `shouldEscape(c, encodeQueryComponent)`: everything except the unreserved
characters (alphanumerics and `-`, `_`, `.`, `~`) is escaped. -/
def shouldEscape (c : Byte) : Bool :=
  if (ch 'a' ≤ c ∧ c ≤ ch 'z') ∨ (ch 'A' ≤ c ∧ c ≤ ch 'Z') ∨ (ch '0' ≤ c ∧ c ≤ ch '9') then false
  else if c = ch '-' ∨ c = ch '_' ∨ c = ch '.' ∨ c = ch '~' then false
  else true

/-- The table `upperhex = "0123456789ABCDEF"`, indexed. -/
def upperhex (n : Nat) : Byte := (str "0123456789ABCDEF").getD n 0

/-- What `escape` writes for one input byte in query-component mode. -/
def escapeByte (c : Byte) : GoString :=
  if shouldEscape c then
    if c = ch ' ' then [ch '+']
    else [ch '%', upperhex (c.val / 16), upperhex (c.val % 16)]
  else [c]

/-- The function `url.QueryEscape`. -/
def QueryEscape (s : GoString) : GoString := s.flatMap escapeByte

/-- The function `ishex`. -/
def ishex (c : Byte) : Bool :=
  (ch '0' ≤ c ∧ c ≤ ch '9') ∨ (ch 'a' ≤ c ∧ c ≤ ch 'f') ∨ (ch 'A' ≤ c ∧ c ≤ ch 'F')

/-- The function `unhex`. -/
def unhex (c : Byte) : Nat :=
  if ch '0' ≤ c ∧ c ≤ ch '9' then c.val - 48
  else if ch 'a' ≤ c ∧ c ≤ ch 'f' then c.val - 97 + 10
  else if ch 'A' ≤ c ∧ c ≤ ch 'F' then c.val - 65 + 10
  else 0

deriving instance DecidableEq for Except

/-- Errors of `net/url` parsing. -/
inductive URLError where
  /-- An `EscapeError`: a malformed `%` sequence, carrying the offending bytes. -/
  | escape (s : GoString)
  /-- The message "invalid semicolon separator in query". -/
  | semicolon
  deriving DecidableEq, Repr

/-- The function `url.QueryUnescape`: `%XX` becomes the byte `XX`, `+` becomes a space; the
first malformed `%` sequence is reported with at most three of its bytes. -/
def QueryUnescape : GoString → Except URLError GoString
  | [] => .ok []
  | c :: s =>
    if c = ch '%' then
      match s with
      | a :: b :: t =>
        if ishex a && ishex b then
          match QueryUnescape t with
          | .ok r => .ok (Fin.ofNat (unhex a * 16 + unhex b) :: r)
          | .error e => .error e
        else .error (.escape [c, a, b])
      | _ => .error (.escape (c :: s))
    else
      match QueryUnescape s with
      | .ok r => .ok ((if c = ch '+' then ch ' ' else c) :: r)
      | .error e => .error e

/-! ## url.Values -/

/-- The type `url.Values` (`map[string][]string`), represented by the sequence of
`(key, value)` pairs it holds: the entry `v[k]` is the subsequence of the values whose key is
`k`, in order.  The relative order of pairs with different keys is representation only: a Go
map has no order, and `Encode` sorts the keys. -/
abbrev Values := List (GoString × GoString)

/-- The entry `v[key]` (empty when the key is absent). -/
def Values.get (v : Values) (key : GoString) : List GoString :=
  (v.filter (fun e => e.1 = key)).map Prod.snd

/-- The keys of the map, each once (`for k := range v`). -/
def Values.keys (v : Values) : List GoString := (v.map Prod.fst).dedup

/-- The method `Values.Add`: `v[key] = append(v[key], value)`. -/
def Values.Add (v : Values) (key value : GoString) : Values := v ++ [(key, value)]

/-- The call `slices.Sort(keys)` on strings. -/
def sortKeys (keys : List GoString) : List GoString :=
  keys.insertionSort (fun a b => strLe a b = true)

/-- The method `Values.Encode`: keys in sorted order, for each key its values in order, every
pair written as `QueryEscape(key)=QueryEscape(value)`, with `&` before each pair but the
first. -/
def Values.Encode (v : Values) : GoString :=
  if v.length = 0 then []
  else
    (sortKeys v.keys).foldl
      (fun buf k =>
        let vs := v.get k
        let keyEscaped := QueryEscape k
        vs.foldl
          (fun buf x =>
            (if buf.length > 0 then buf ++ [ch '&'] else buf)
              ++ keyEscaped ++ [ch '='] ++ QueryEscape x)
          buf)
      []

/-- One pair as it stands in an encoded query: `QueryEscape(key)=QueryEscape(value)`. -/
def encodePair (e : GoString × GoString) : GoString :=
  QueryEscape e.1 ++ [ch '='] ++ QueryEscape e.2

/-- A query string spelt out from its pairs: the encoded pairs, `&` between them. -/
def joinPairs (pairs : List (GoString × GoString)) : GoString :=
  (str "&").intercalate (pairs.map encodePair)

/-- The pairs of a map arranged by ascending key, the values of one key in their order. -/
def Values.sortedPairs (v : Values) : List (GoString × GoString) :=
  (sortKeys v.keys).flatMap (fun k => (v.get k).map (fun x => (k, x)))

/-- The buffer after writing the pairs to it, `&` before each pair when the buffer is not
empty (the body of the loops of `Encode`). -/
def writePairs (buf : GoString) (pairs : List (GoString × GoString)) : GoString :=
  pairs.foldl
    (fun buf e =>
      (if buf.length > 0 then buf ++ [ch '&'] else buf)
        ++ QueryEscape e.1 ++ [ch '='] ++ QueryEscape e.2)
    buf

/-- The function `strings.Cut` with a one-byte separator: the text before the first
separator, the text after it, and whether it was found. -/
def Cut (s : GoString) (sep : Byte) : GoString × GoString × Bool :=
  match s with
  | [] => ([], [], false)
  | c :: r =>
    if c = sep then ([], r, true)
    else
      let res := Cut r sep
      (c :: res.1, res.2.1, res.2.2)

/-- The loop of `url.parseQuery`: one iteration per `&`-separated piece.  A piece holding a
`;` sets the error, an empty piece is skipped, a piece whose key or value does not unescape
records the first such error; every other piece is added to the map. -/
def parseQuery : Nat → Values → Option URLError → GoString → Values × Option URLError
  | 0, m, err, _ => (m, err)
  | fuel + 1, m, err, query =>
    if query = [] then (m, err)
    else
      let c := Cut query (ch '&')
      let key := c.1
      let query := c.2.1
      if key.contains (ch ';') then parseQuery fuel m (some .semicolon) query
      else if key = [] then parseQuery fuel m err query
      else
        let kv := Cut key (ch '=')
        match QueryUnescape kv.1 with
        | .error err1 => parseQuery fuel m (if err = none then some err1 else err) query
        | .ok key =>
          match QueryUnescape kv.2.1 with
          | .error err1 => parseQuery fuel m (if err = none then some err1 else err) query
          | .ok value => parseQuery fuel (m.Add key value) err query

/-- The function `url.ParseQuery`: the map read from a query string, with the first error
met.  Every iteration of the loop consumes at least one byte, so the length of the query is
enough fuel. -/
def ParseQuery (query : GoString) : Values × Option URLError :=
  parseQuery query.length [] none query

/-! ## The resource file -/

/-- Modelled from the spec: the declaration of `ID` is not in the file; the spec calls it
"an integer resource ID".  Converting it with `int(...)` keeps its value. -/
abbrev ID := Int

/-- Modelled from the spec: the helper `joinIDs(ids, separator)` is not in the file; the
spec says the IDs are "joined as a comma-separated list", the test shows `ids=1,2,3`: the
decimal renderings in input order, the separator between consecutive ones. -/
def joinIDs (ids : List ID) (separator : GoString) : GoString :=
  match ids with
  | [] => []
  | [id] => Itoa id
  | id :: rest => Itoa id ++ separator ++ joinIDs rest separator

/-- The struct `SpacedRepetitionSystemStagedObject`. -/
structure SpacedRepetitionSystemStagedObject where
  Interval : Option Int
  IntervalUnit : Option GoString
  Position : Int
  deriving DecidableEq, Repr

/-- The struct `SpacedRepetitionSystemData`; `Time` stands for `time.Time`. -/
structure SpacedRepetitionSystemData (Time : Type) where
  BurningStagePosition : Int
  CreatedAt : Time
  Description : GoString
  Name : GoString
  PassingStagePosition : Int
  Stages : List (Option SpacedRepetitionSystemStagedObject)
  StartingStagePosition : Int
  UnlockingStagePosition : Int
  deriving DecidableEq, Repr

/-- The struct `SpacedRepetitionSystem`; `Object` stands for the embedded envelope type, whose
declaration is not in the file. -/
structure SpacedRepetitionSystem (Object Time : Type) where
  Object : Object
  Data : Option (SpacedRepetitionSystemData Time)
  deriving DecidableEq, Repr

/-- The struct `SpacedRepetitionSystemPage`; `PageObject` stands for the embedded pagination
envelope type, whose declaration is not in the file. -/
structure SpacedRepetitionSystemPage (Object PageObject Time : Type) where
  PageObject : Option PageObject
  Data : List (Option (SpacedRepetitionSystem Object Time))
  deriving DecidableEq, Repr

/-- The struct `SpacedRepetitionSystemGetParams`. -/
structure SpacedRepetitionSystemGetParams where
  ID : Option ID
  deriving DecidableEq, Repr

/-- The constant `time.RFC3339`. -/
def RFC3339 : GoString := str "2006-01-02T15:04:05Z07:00"

/-- The struct `SpacedRepetitionSystemListParams`; `LP` stands for the embedded `ListParams`
type, whose declaration is not in the file.  A nil slice is `none`, an empty non-nil slice is
`some []`. -/
structure SpacedRepetitionSystemListParams (LP Time : Type) where
  ListParams : Option LP
  IDs : Option (List ID)
  UpdatedAfter : Option Time

/-- The method `(*SpacedRepetitionSystemListParams).EncodeToQuery` on a non-nil receiver.
The two things it calls that are not in the file are arguments: `encodeToURLValues`, the
promoted method of the embedded `*ListParams` that starts the map (it is called on the
embedded pointer, nil or not, and returns a map), and `Format`, the method
`time.Time.Format(layout)`. -/
def SpacedRepetitionSystemListParams.EncodeToQuery {LP Time : Type}
    (encodeToURLValues : Option LP → Values) (Format : Time → GoString → GoString)
    (p : SpacedRepetitionSystemListParams LP Time) : GoString :=
  let values := encodeToURLValues p.ListParams
  let values :=
    match p.IDs with
    | some ids => values.Add (str "ids") (joinIDs ids (str ","))
    | none => values
  let values :=
    match p.UpdatedAfter with
    | some t => values.Add (str "updated_after") (Format t RFC3339)
    | none => values
  values.Encode

/-- One call of the dispatcher, as the test client records it. -/
structure RecordedRequest where
  Method : GoString
  Path : GoString
  Query : GoString
  Body : Option GoString
  deriving DecidableEq, Repr

/-- The dispatcher `c.request(method, path, query, body, obj) error` is not in the file.  It
is taken as an arbitrary function of the state of the outside world `σ`, the request and the
destination object `obj` it is handed: it gives the new state of the world, the destination
as it leaves it, and the error it returns (`none` is a nil error). -/
structure Client (σ ε α : Type) where
  transport : σ → RecordedRequest → α → σ × α × Option ε

/-- What a run can observe: the state of the outside world and the dispatcher calls made so
far, oldest first. -/
structure ClientState (σ : Type) where
  world : σ
  RecordedRequests : List RecordedRequest

/-- One call `c.request(method, path, query, body, obj)`: the call is recorded and the
dispatcher runs once. -/
def Client.request {σ ε α : Type} (c : Client σ ε α) (method path query : GoString)
    (body : Option GoString) (obj : α) (s : ClientState σ) : (α × Option ε) × ClientState σ :=
  let req : RecordedRequest := { Method := method, Path := path, Query := query, Body := body }
  let r := c.transport s.world req obj
  ((r.2.1, r.2.2), { world := r.1, RecordedRequests := s.RecordedRequests ++ [req] })

/-- A Go run-time panic. -/
inductive GoPanic where
  /-- The panic "invalid memory address or nil pointer dereference". -/
  | nilDereference
  deriving DecidableEq, Repr

/-- The method `(*Client).SpacedRepetitionSystemGet`.  A pointer is an `Option`; the result is
either a panic or the returned pair `(obj, err)`, next to the state after the run.  The
arguments of `c.request` are evaluated before the call, so dereferencing a nil `params` or a
nil `params.ID` panics before the dispatcher is reached. -/
def SpacedRepetitionSystemGet {σ ε Object Time : Type} [Inhabited Object]
    (c : Client σ ε (SpacedRepetitionSystem Object Time))
    (params : Option SpacedRepetitionSystemGetParams) (s : ClientState σ) :
    Except GoPanic (Option (SpacedRepetitionSystem Object Time) × Option ε) × ClientState σ :=
  let obj : SpacedRepetitionSystem Object Time := { Object := default, Data := none }
  match params with
  | none => (.error .nilDereference, s)
  | some params =>
    match params.ID with
    | none => (.error .nilDereference, s)
    | some id =>
      let r := c.request (str "GET") (str "/v2/spaced_repetition_systems/" ++ Itoa id) (str "")
        none obj s
      (.ok (some r.1.1, r.1.2), r.2)

/-- The method `(*Client).SpacedRepetitionSystemList`.  Calling `EncodeToQuery` on a nil
`params` panics when it reads the receiver. -/
def SpacedRepetitionSystemList {σ ε Object PageObject LP Time : Type}
    (encodeToURLValues : Option LP → Values) (Format : Time → GoString → GoString)
    (c : Client σ ε (SpacedRepetitionSystemPage Object PageObject Time))
    (params : Option (SpacedRepetitionSystemListParams LP Time)) (s : ClientState σ) :
    Except GoPanic (Option (SpacedRepetitionSystemPage Object PageObject Time) × Option ε)
      × ClientState σ :=
  let obj : SpacedRepetitionSystemPage Object PageObject Time := { PageObject := none, Data := [] }
  match params with
  | none => (.error .nilDereference, s)
  | some params =>
    let r := c.request (str "GET") (str "/v2/spaced_repetition_systems")
      (params.EncodeToQuery encodeToURLValues Format) none obj s
    (.ok (some r.1.1, r.1.2), r.2)

/-! ## Concrete instances, for examples -/

/-- A dispatcher that fails every call with the error `boom` and leaves the destination as it
was handed over. -/
def failingClient (α : Type) : Client Unit GoString α :=
  { transport := fun w _ obj => (w, obj, some (str "boom")) }

/-- A state with no dispatcher call made yet. -/
def initialState : ClientState Unit := { world := (), RecordedRequests := [] }

/-- A base encoder that gives no pagination parameters. -/
def noPagination : Option Unit → Values := fun _ => []

/-- A base encoder that gives the one parameter `hidden=true`. -/
def hiddenOnly : Option Unit → Values := fun _ => [(str "hidden", str "true")]

/-- A stand-in for `time.Time.Format` on times that are kept as their rendering. -/
def renderedTime (t : GoString) (_layout : GoString) : GoString := t

/-! ## Decimal renderings -/

theorem formatDigits_append (fuel n : Nat) (acc : GoString) :
    formatDigits fuel n acc = formatDigits fuel n [] ++ acc := by
  induction fuel generalizing n acc with
  | zero => simp [formatDigits]
  | succ f ih =>
    simp only [formatDigits]
    split
    · simp
    · rw [ih (n / 10) (digitByte (n % 10) :: acc), ih (n / 10) [digitByte (n % 10)]]
      simp

theorem digitByte_val (d : Nat) : (digitByte d).val = 48 + d % 10 := by
  simp only [digitByte, Fin.ofNat, Fin.val_mk]
  omega

theorem decimalNat_snoc (s : GoString) (d a : Nat) :
    decimalNat (s ++ [digitByte d]) a = (decimalNat s a).map (fun m => m * 10 + d % 10) := by
  induction s generalizing a with
  | nil =>
    simp only [List.nil_append, decimalNat, digitByte_val]
    rw [if_pos (by omega)]
    simp
  | cons c s ih =>
    simp only [List.cons_append, decimalNat]
    split
    · exact ih _
    · rfl

theorem decimalNat_formatDigits (fuel n : Nat) (h : n < fuel) :
    decimalNat (formatDigits fuel n []) 0 = some n := by
  induction fuel generalizing n with
  | zero => omega
  | succ f ih =>
    simp only [formatDigits]
    split
    · rename_i h10
      simp only [decimalNat, digitByte_val]
      rw [if_pos (by omega)]
      congr 1
      omega
    · rename_i h10
      rw [formatDigits_append, decimalNat_snoc, ih (n / 10) (by omega)]
      simp only [Option.map_some']
      congr 1
      omega

theorem formatDigits_ne_nil (fuel n : Nat) (h : n < fuel) : formatDigits fuel n [] ≠ [] := by
  intro h0
  have := decimalNat_formatDigits fuel n h
  cases fuel with
  | zero => omega
  | succ f =>
    simp only [formatDigits] at h0
    split at h0
    · simp at h0
    · rw [formatDigits_append] at h0
      simp at h0

/-- Reading back what `Itoa` writes gives the number. -/
theorem decimalValue_Itoa (i : Int) : decimalValue (Itoa i) = some i := by
  unfold Itoa
  split
  · rename_i hneg
    unfold decimalValue
    simp only [↓reduceIte]
    rw [if_neg (formatDigits_ne_nil _ _ (Nat.lt_succ_self _)),
      decimalNat_formatDigits _ _ (Nat.lt_succ_self _)]
    simp only [Option.map_some', Option.some.injEq, Int.ofNat_eq_coe]
    omega
  · rename_i hpos
    have hd := decimalNat_formatDigits (i.natAbs + 1) i.natAbs (Nat.lt_succ_self _)
    have hne := formatDigits_ne_nil (i.natAbs + 1) i.natAbs (Nat.lt_succ_self _)
    generalize formatDigits (i.natAbs + 1) i.natAbs [] = s at hd hne
    cases s with
    | nil => exact absurd rfl hne
    | cons c t =>
      have hc : c ≠ ch '-' := by
        intro hc
        subst hc
        have h45 : (ch '-').val = 45 := by decide
        simp only [decimalNat, h45] at hd
        rw [if_neg (by omega)] at hd
        exact absurd hd (by simp)
      simp only [decimalValue, if_neg hc, hd, Option.map_some', Option.some.injEq,
        Int.ofNat_eq_coe]
      omega

/-! ## Escaping and unescaping -/

theorem hex_nibble : ∀ n : Fin 16, ishex (upperhex n.val) = true ∧ unhex (upperhex n.val) = n.val := by
  decide

theorem upperhex_bytes : ∀ n : Fin 16,
    upperhex n.val ≠ ch '&' ∧ upperhex n.val ≠ ch '=' ∧ upperhex n.val ≠ ch ';' := by
  decide

theorem shouldEscape_special :
    shouldEscape (ch '%') = true ∧ shouldEscape (ch '+') = true ∧ shouldEscape (ch '&') = true ∧
      shouldEscape (ch '=') = true ∧ shouldEscape (ch ';') = true := by
  decide

theorem QueryUnescape_plain (c : Byte) (t : GoString) (h1 : c ≠ ch '%') :
    QueryUnescape (c :: t) =
      match QueryUnescape t with
      | .ok r => .ok ((if c = ch '+' then ch ' ' else c) :: r)
      | .error e => .error e := by
  rw [QueryUnescape.eq_def]
  simp only [if_neg h1]

theorem QueryUnescape_percent (a b : Byte) (t : GoString) (ha : ishex a = true)
    (hb : ishex b = true) :
    QueryUnescape (ch '%' :: a :: b :: t) =
      match QueryUnescape t with
      | .ok r => .ok (Fin.ofNat (unhex a * 16 + unhex b) :: r)
      | .error e => .error e := by
  rw [QueryUnescape.eq_def]
  simp only [if_true, ha, hb, Bool.and_self]

/-- Unescaping undoes the escaping of one byte, whatever follows. -/
theorem QueryUnescape_escapeByte (c : Byte) (t : GoString) :
    QueryUnescape (escapeByte c ++ t) =
      match QueryUnescape t with
      | .ok r => .ok (c :: r)
      | .error e => .error e := by
  unfold escapeByte
  by_cases hs : shouldEscape c = true
  · rw [if_pos hs]
    by_cases hsp : c = ch ' '
    · rw [if_pos hsp]
      subst hsp
      have h1 : ch '+' ≠ ch '%' := by decide
      simp only [List.cons_append, List.nil_append]
      rw [QueryUnescape_plain _ _ h1]
      simp only [if_true]
    · rw [if_neg hsp]
      have hhi := hex_nibble ⟨c.val / 16, by omega⟩
      have hlo := hex_nibble ⟨c.val % 16, by omega⟩
      simp only at hhi hlo
      simp only [List.cons_append, List.nil_append]
      rw [QueryUnescape_percent _ _ _ hhi.1 hlo.1, hhi.2, hlo.2]
      have : (Fin.ofNat (c.val / 16 * 16 + c.val % 16) : Byte) = c := by
        apply Fin.ext
        simp only [Fin.ofNat, Fin.val_mk]
        omega
      rw [this]
  · have hs2 : shouldEscape c = false := by simpa using hs
    have h1 : c ≠ ch '%' := by
      intro h; subst h; exact absurd shouldEscape_special.1 hs
    have h2 : c ≠ ch '+' := by
      intro h; subst h; exact absurd shouldEscape_special.2.1 hs
    rw [if_neg hs]
    simp only [List.cons_append, List.nil_append]
    rw [QueryUnescape_plain _ _ h1]
    simp only [if_neg h2]

theorem QueryUnescape_QueryEscape_append (s t : GoString) :
    QueryUnescape (QueryEscape s ++ t) =
      match QueryUnescape t with
      | .ok r => .ok (s ++ r)
      | .error e => .error e := by
  induction s with
  | nil => simp only [QueryEscape, List.flatMap_nil, List.nil_append]; split <;> simp_all
  | cons c s ih =>
    have : QueryEscape (c :: s) = escapeByte c ++ QueryEscape s := by
      simp [QueryEscape]
    rw [this, List.append_assoc, QueryUnescape_escapeByte, ih]
    cases QueryUnescape t <;> simp

/-- The function `QueryUnescape` undoes `QueryEscape`, on every byte string. -/
theorem QueryUnescape_QueryEscape (s : GoString) : QueryUnescape (QueryEscape s) = .ok s := by
  have := QueryUnescape_QueryEscape_append s []
  simpa [QueryUnescape] using this

theorem escapeByte_bytes (c b : Byte) (hb : b ∈ escapeByte c) :
    b ≠ ch '&' ∧ b ≠ ch '=' ∧ b ≠ ch ';' := by
  unfold escapeByte at hb
  by_cases hs : shouldEscape c = true
  · rw [if_pos hs] at hb
    by_cases hsp : c = ch ' '
    · rw [if_pos hsp] at hb
      simp only [List.mem_singleton] at hb
      subst hb
      decide
    · rw [if_neg hsp] at hb
      simp only [List.mem_cons, List.mem_singleton, List.not_mem_nil, or_false] at hb
      rcases hb with hb | hb | hb
      · subst hb; decide
      · subst hb; exact upperhex_bytes ⟨c.val / 16, by omega⟩
      · subst hb; exact upperhex_bytes ⟨c.val % 16, by omega⟩
  · rw [if_neg hs] at hb
    simp only [List.mem_singleton] at hb
    subst hb
    refine ⟨?_, ?_, ?_⟩
    · intro h; subst h; exact absurd shouldEscape_special.2.2.1 hs
    · intro h; subst h; exact absurd shouldEscape_special.2.2.2.1 hs
    · intro h; subst h; exact absurd shouldEscape_special.2.2.2.2 hs

theorem QueryEscape_bytes (s : GoString) : ∀ b ∈ QueryEscape s,
    b ≠ ch '&' ∧ b ≠ ch '=' ∧ b ≠ ch ';' := by
  intro b hb
  simp only [QueryEscape, List.mem_flatMap] at hb
  obtain ⟨c, _, hc⟩ := hb
  exact escapeByte_bytes c b hc

/-! ## Encode, spelt out -/

theorem writePairs_append (buf : GoString) (p q : List (GoString × GoString)) :
    writePairs buf (p ++ q) = writePairs (writePairs buf p) q := by
  simp [writePairs, List.foldl_append]

theorem writePairs_of_ne_nil (buf : GoString) (pairs : List (GoString × GoString))
    (h : buf ≠ []) :
    writePairs buf pairs = buf ++ pairs.flatMap (fun e => ch '&' :: encodePair e) := by
  induction pairs generalizing buf with
  | nil => simp [writePairs]
  | cons e rest ih =>
    have hlen : buf.length > 0 := List.length_pos.mpr h
    have hstep : writePairs buf (e :: rest)
        = writePairs (buf ++ [ch '&'] ++ QueryEscape e.1 ++ [ch '='] ++ QueryEscape e.2) rest := by
      simp only [writePairs, List.foldl_cons, if_pos hlen]
    rw [hstep, ih _ (by simp)]
    simp [encodePair]

theorem encodePair_ne_nil (e : GoString × GoString) : encodePair e ≠ [] := by
  simp [encodePair]

theorem writePairs_nil_cons (e : GoString × GoString) (rest : List (GoString × GoString)) :
    writePairs [] (e :: rest)
      = encodePair e ++ rest.flatMap (fun e => ch '&' :: encodePair e) := by
  have hstep : writePairs [] (e :: rest) = writePairs (encodePair e) rest := by
    simp [writePairs, encodePair]
  rw [hstep, writePairs_of_ne_nil _ _ (encodePair_ne_nil e)]

theorem joinPairs_nil : joinPairs [] = [] := by
  simp [joinPairs, List.intercalate]

theorem joinPairs_cons (e : GoString × GoString) (rest : List (GoString × GoString)) :
    joinPairs (e :: rest)
      = encodePair e ++ rest.flatMap (fun e => ch '&' :: encodePair e) := by
  induction rest generalizing e with
  | nil => simp [joinPairs, List.intercalate]
  | cons f rest ih =>
    have h := ih f
    have hamp : str "&" = [ch '&'] := by decide
    simp only [joinPairs, List.intercalate, List.map_cons, List.intersperse_cons_cons,
      List.flatten_cons, List.flatMap_cons, hamp] at h ⊢
    rw [h]
    simp

theorem writePairs_nil_eq_joinPairs (pairs : List (GoString × GoString)) :
    writePairs [] pairs = joinPairs pairs := by
  cases pairs with
  | nil => simp [writePairs, joinPairs_nil]
  | cons e rest => rw [writePairs_nil_cons, joinPairs_cons]

theorem foldl_writePairs (keys : List GoString) (block : GoString → List (GoString × GoString))
    (buf : GoString) :
    keys.foldl (fun buf k => writePairs buf (block k)) buf
      = writePairs buf (keys.flatMap block) := by
  induction keys generalizing buf with
  | nil => simp [writePairs]
  | cons k keys ih =>
    rw [List.foldl_cons, ih, List.flatMap_cons, writePairs_append]

/-- What `Encode` writes: the pairs by ascending key, encoded and joined by `&`. -/
theorem Encode_eq_joinPairs (v : Values) : v.Encode = joinPairs v.sortedPairs := by
  unfold Values.Encode
  split
  · rename_i h
    have hv : v = [] := List.length_eq_zero.mp h
    subst hv
    simp [Values.sortedPairs, Values.keys, sortKeys, joinPairs_nil]
  · have hinner : ∀ (k : GoString) (buf : GoString),
        (v.get k).foldl
          (fun buf x =>
            (if buf.length > 0 then buf ++ [ch '&'] else buf)
              ++ QueryEscape k ++ [ch '='] ++ QueryEscape x) buf
          = writePairs buf ((v.get k).map (fun x => (k, x))) := by
      intro k buf
      simp [writePairs, List.foldl_map]
    simp only [hinner]
    rw [foldl_writePairs, writePairs_nil_eq_joinPairs]
    rfl

/-! ## Reading an encoded query back -/

theorem Cut_of_not_mem (a : GoString) (sep : Byte) (h : sep ∉ a) : Cut a sep = (a, [], false) := by
  induction a with
  | nil => rfl
  | cons c a ih =>
    have hc : c ≠ sep := fun hc => h (by simp [hc])
    have ha : sep ∉ a := fun ha => h (by simp [ha])
    rw [Cut, if_neg hc, ih ha]

theorem Cut_append_sep (a b : GoString) (sep : Byte) (h : sep ∉ a) :
    Cut (a ++ sep :: b) sep = (a, b, true) := by
  induction a with
  | nil => simp [Cut]
  | cons c a ih =>
    have hc : c ≠ sep := fun hc => h (by simp [hc])
    have ha : sep ∉ a := fun ha => h (by simp [ha])
    rw [List.cons_append, Cut, if_neg hc, ih ha]

theorem amp_not_mem_encodePair (e : GoString × GoString) : ch '&' ∉ encodePair e := by
  intro h
  simp only [encodePair, List.mem_append, List.mem_singleton] at h
  rcases h with (h | h) | h
  · exact (QueryEscape_bytes _ _ h).1 rfl
  · exact absurd h (by decide)
  · exact (QueryEscape_bytes _ _ h).1 rfl

theorem semicolon_not_mem_encodePair (e : GoString × GoString) : ch ';' ∉ encodePair e := by
  intro h
  simp only [encodePair, List.mem_append, List.mem_singleton] at h
  rcases h with (h | h) | h
  · exact (QueryEscape_bytes _ _ h).2.2 rfl
  · exact absurd h (by decide)
  · exact (QueryEscape_bytes _ _ h).2.2 rfl

theorem Cut_encodePair (e : GoString × GoString) :
    Cut (encodePair e) (ch '=') = (QueryEscape e.1, QueryEscape e.2, true) := by
  have h : ch '=' ∉ QueryEscape e.1 := fun h => (QueryEscape_bytes _ _ h).2.1 rfl
  have := Cut_append_sep (QueryEscape e.1) (QueryEscape e.2) (ch '=') h
  simpa [encodePair] using this

/-- Cutting a joined query at the first `&` gives the first pair and the rest, joined. -/
theorem Cut_joinPairs (e : GoString × GoString) (rest : List (GoString × GoString)) :
    (Cut (joinPairs (e :: rest)) (ch '&')).1 = encodePair e ∧
      (Cut (joinPairs (e :: rest)) (ch '&')).2.1 = joinPairs rest := by
  cases rest with
  | nil =>
    rw [joinPairs_cons]
    simp only [List.flatMap_nil, List.append_nil]
    rw [Cut_of_not_mem _ _ (amp_not_mem_encodePair e)]
    simp [joinPairs_nil]
  | cons f rest =>
    rw [joinPairs_cons e, List.flatMap_cons, List.cons_append,
      Cut_append_sep _ _ _ (amp_not_mem_encodePair e), ← joinPairs_cons f]
    simp

theorem length_joinPairs_cons (e : GoString × GoString) (rest : List (GoString × GoString)) :
    (joinPairs rest).length < (joinPairs (e :: rest)).length := by
  cases rest with
  | nil =>
    have := List.length_pos.mpr (encodePair_ne_nil e)
    simp only [joinPairs_nil, joinPairs_cons, List.flatMap_nil, List.append_nil, List.length_nil]
    exact this
  | cons f rest =>
    rw [joinPairs_cons e, List.flatMap_cons, List.cons_append, ← joinPairs_cons f]
    have := List.length_pos.mpr (encodePair_ne_nil e)
    simp only [List.length_append, List.length_cons, List.cons_append]
    omega

/-- The loop of `parseQuery`, run on a joined query with enough fuel, adds the pairs one by
one and meets no error. -/
theorem parseQuery_joinPairs (pairs : List (GoString × GoString)) (fuel : Nat) (m : Values)
    (h : (joinPairs pairs).length ≤ fuel) :
    parseQuery fuel m none (joinPairs pairs) = (m ++ pairs, none) := by
  induction pairs generalizing fuel m with
  | nil =>
    rw [joinPairs_nil]
    cases fuel <;> simp [parseQuery]
  | cons e rest ih =>
    have hlt := length_joinPairs_cons e rest
    cases fuel with
    | zero => omega
    | succ f =>
      have hne : joinPairs (e :: rest) ≠ [] := by
        intro h0
        rw [h0] at hlt
        simp at hlt
      obtain ⟨hc1, hc2⟩ := Cut_joinPairs e rest
      have hsemi : (encodePair e).contains (ch ';') = false := by
        simpa using semicolon_not_mem_encodePair e
      rw [parseQuery, if_neg hne]
      simp only [hc1, hc2, hsemi, Bool.false_eq_true, if_false, if_neg (encodePair_ne_nil e),
        Cut_encodePair, QueryUnescape_QueryEscape]
      rw [ih f (m.Add e.1 e.2) (by omega)]
      simp [Values.Add]

/-- Parsing what `Encode` wrote succeeds and gives back the pairs, by ascending key. -/
theorem ParseQuery_Encode (v : Values) : ParseQuery v.Encode = (v.sortedPairs, none) := by
  rw [Encode_eq_joinPairs]
  unfold ParseQuery
  rw [parseQuery_joinPairs _ _ _ (Nat.le_refl _)]
  simp

/-! ## The order of the keys -/

theorem strLe_refl (a : GoString) : strLe a a = true := by
  induction a with
  | nil => rfl
  | cons x a ih => simp [strLe, ih]

theorem strLe_total (a b : GoString) : strLe a b = true ∨ strLe b a = true := by
  induction a generalizing b with
  | nil => left; cases b <;> rfl
  | cons x a ih =>
    cases b with
    | nil => right; rfl
    | cons y b =>
      simp only [strLe]
      rcases lt_trichotomy x y with h | h | h
      · left; simp [h]
      · subst h; simpa using ih b
      · right; simp [h]

theorem strLe_antisymm (a b : GoString) (h1 : strLe a b = true) (h2 : strLe b a = true) :
    a = b := by
  induction a generalizing b with
  | nil =>
    cases b with
    | nil => rfl
    | cons y b => simp [strLe] at h2
  | cons x a ih =>
    cases b with
    | nil => simp [strLe] at h1
    | cons y b =>
      simp only [strLe] at h1 h2
      rcases lt_trichotomy x y with h | h | h
      · have hn : ¬ y < x := not_lt.mpr (le_of_lt h)
        simp [h, hn] at h2
      · subst h
        simp only [lt_self_iff_false, if_false] at h1 h2
        rw [ih b h1 h2]
      · have hn : ¬ x < y := not_lt.mpr (le_of_lt h)
        simp [h, hn] at h1

theorem strLe_trans (a b c : GoString) (h1 : strLe a b = true) (h2 : strLe b c = true) :
    strLe a c = true := by
  induction a generalizing b c with
  | nil => cases c <;> rfl
  | cons x a ih =>
    cases b with
    | nil => simp [strLe] at h1
    | cons y b =>
      cases c with
      | nil => simp [strLe] at h2
      | cons z c =>
        simp only [strLe] at h1 h2 ⊢
        by_cases hxy : x < y
        · by_cases hyz : y < z
          · simp [lt_trans hxy hyz]
          · by_cases hzy : z < y
            · simp [hyz, hzy] at h2
            · have : y = z := le_antisymm (not_lt.mp hzy) (not_lt.mp hyz)
              subst this
              simp [hxy]
        · by_cases hyx : y < x
          · simp [hxy, hyx] at h1
          · have : x = y := le_antisymm (not_lt.mp hyx) (not_lt.mp hxy)
            subst this
            simp only [lt_self_iff_false, if_false] at h1
            by_cases hxz : x < z
            · simp [hxz]
            · by_cases hzx : z < x
              · simp [hxz, hzx] at h2
              · simp only [hxz, hzx, if_false] at h2 ⊢
                exact ih b c h1 h2

theorem sortKeys_sorted (keys : List GoString) :
    (sortKeys keys).Pairwise (fun a b => strLe a b = true) := by
  haveI : IsTotal GoString (fun a b => strLe a b = true) := ⟨strLe_total⟩
  haveI : IsTrans GoString (fun a b => strLe a b = true) := ⟨strLe_trans⟩
  exact List.sorted_insertionSort (fun a b => strLe a b = true) keys

theorem sortKeys_perm (keys : List GoString) : (sortKeys keys).Perm keys :=
  List.perm_insertionSort (fun a b => strLe a b = true) keys

/-! ## The entries of the sorted pairs -/

theorem get_append (v w : Values) (k : GoString) : Values.get (v ++ w) k = v.get k ++ w.get k := by
  simp [Values.get]

theorem get_Add (v : Values) (key value k : GoString) :
    (v.Add key value).get k = if key = k then v.get k ++ [value] else v.get k := by
  unfold Values.Add
  rw [get_append]
  by_cases h : key = k
  · simp [Values.get, h]
  · simp [Values.get, h]

theorem get_eq_nil_of_not_mem (v : Values) (k : GoString) (h : k ∉ v.map Prod.fst) :
    v.get k = [] := by
  simp only [Values.get, List.map_eq_nil_iff, List.filter_eq_nil_iff, decide_eq_true_eq]
  intro e he hk
  exact h (List.mem_map.mpr ⟨e, he, hk⟩)

theorem mem_keys_of_get_ne_nil (v : Values) (k : GoString) (h : v.get k ≠ []) : k ∈ v.keys := by
  by_contra hk
  exact h (get_eq_nil_of_not_mem v k (fun hm => hk (List.mem_dedup.mpr hm)))

theorem get_ne_nil_of_mem_keys (v : Values) (k : GoString) (h : k ∈ v.keys) : v.get k ≠ [] := by
  have hm : k ∈ v.map Prod.fst := List.mem_dedup.mp h
  obtain ⟨e, he, hk⟩ := List.mem_map.mp hm
  intro h0
  simp only [Values.get, List.map_eq_nil_iff, List.filter_eq_nil_iff, decide_eq_true_eq] at h0
  exact h0 e he hk

theorem get_block (v : Values) (k' k : GoString) :
    Values.get ((v.get k').map (fun x => (k', x))) k = if k' = k then v.get k' else [] := by
  by_cases h : k' = k
  · simp [Values.get, h, List.filter_map, Function.comp_def]
  · simp [Values.get, h, List.filter_map, Function.comp_def]

theorem get_blocks (v : Values) (keys : List GoString) (hnd : keys.Nodup) (k : GoString) :
    Values.get (keys.flatMap (fun k' => (v.get k').map (fun x => (k', x)))) k
      = if k ∈ keys then v.get k else [] := by
  induction keys with
  | nil => simp [Values.get]
  | cons k' keys ih =>
    rw [List.flatMap_cons, get_append, get_block, ih (List.nodup_cons.mp hnd).2]
    by_cases h : k' = k
    · subst h
      have hn : k' ∉ keys := (List.nodup_cons.mp hnd).1
      simp [hn]
    · have h' : ¬ k = k' := fun e => h e.symm
      simp [h, h']

theorem sortKeys_nodup (v : Values) : (sortKeys v.keys).Nodup :=
  (sortKeys_perm v.keys).nodup_iff.mpr (List.nodup_dedup _)

/-- Arranging the pairs by key leaves every entry of the map as it was. -/
theorem get_sortedPairs (v : Values) (k : GoString) : Values.get v.sortedPairs k = v.get k := by
  unfold Values.sortedPairs
  rw [get_blocks v _ (sortKeys_nodup v)]
  by_cases h : k ∈ sortKeys v.keys
  · simp [h]
  · rw [if_neg h]
    have hk : k ∉ v.keys := fun hk => h ((sortKeys_perm v.keys).mem_iff.mpr hk)
    by_contra hne
    exact hk (mem_keys_of_get_ne_nil v k (fun h0 => hne h0.symm))

/-- In the sorted pairs every key is at most the key of every later pair. -/
theorem sortedPairs_sorted (v : Values) :
    v.sortedPairs.Pairwise (fun e f => strLe e.1 f.1 = true) := by
  unfold Values.sortedPairs
  rw [List.pairwise_flatMap]
  constructor
  · intro k _
    rw [List.pairwise_map]
    exact List.pairwise_of_forall (fun _ _ => strLe_refl k)
  · refine (sortKeys_sorted v.keys).imp ?_
    intro a b hab x hx y hy
    obtain ⟨_, _, rfl⟩ := List.mem_map.mp hx
    obtain ⟨_, _, rfl⟩ := List.mem_map.mp hy
    exact hab

/-- Two maps with the same entry under every key are encoded alike: the encoding does not
depend on the order in which entries of different keys were added. -/
theorem Encode_congr (v w : Values) (h : ∀ k, v.get k = w.get k) : v.Encode = w.Encode := by
  rw [Encode_eq_joinPairs, Encode_eq_joinPairs]
  have hkeys : ∀ k, k ∈ v.keys ↔ k ∈ w.keys := by
    intro k
    constructor
    · intro hk
      exact mem_keys_of_get_ne_nil w k (h k ▸ get_ne_nil_of_mem_keys v k hk)
    · intro hk
      exact mem_keys_of_get_ne_nil v k ((h k).symm ▸ get_ne_nil_of_mem_keys w k hk)
  have hperm : (sortKeys v.keys).Perm (sortKeys w.keys) :=
    (List.perm_ext_iff_of_nodup (sortKeys_nodup v) (sortKeys_nodup w)).mpr (fun k => by
      rw [(sortKeys_perm v.keys).mem_iff, (sortKeys_perm w.keys).mem_iff]
      exact hkeys k)
  have hsort : sortKeys v.keys = sortKeys w.keys := by
    haveI : IsAntisymm GoString (fun a b => strLe a b = true) := ⟨strLe_antisymm⟩
    exact List.eq_of_perm_of_sorted hperm (sortKeys_sorted v.keys) (sortKeys_sorted w.keys)
  unfold Values.sortedPairs
  rw [hsort]
  congr 2
  funext k
  rw [h k]

/-! ## The query built by EncodeToQuery -/

theorem joinIDs_eq_intercalate (ids : List ID) (sep : GoString) :
    joinIDs ids sep = sep.intercalate (ids.map Itoa) := by
  induction ids with
  | nil => simp [joinIDs, List.intercalate]
  | cons id rest ih =>
    cases rest with
    | nil => simp [joinIDs, List.intercalate]
    | cons id2 rest =>
      rw [joinIDs, ih]
      simp [List.intercalate, List.intersperse_cons_cons]
      · intro h; cases h

theorem sortedPairs_singleton (k x : GoString) : Values.sortedPairs [(k, x)] = [(k, x)] := by
  simp [Values.sortedPairs, Values.keys, Values.get, sortKeys]

theorem QueryUnescape_encodePair (e : GoString × GoString) :
    QueryUnescape (encodePair e) = .ok (e.1 ++ [ch '='] ++ e.2) := by
  have heq : ch '=' ≠ ch '%' := by decide
  have hplus : ch '=' ≠ ch '+' := by decide
  unfold encodePair
  rw [List.append_assoc, QueryUnescape_QueryEscape_append, List.singleton_append,
    QueryUnescape_plain _ _ heq, QueryUnescape_QueryEscape]
  simp [hplus]

/-- The map that `EncodeToQuery` encodes: the base parameters, then `ids` when the list is
not nil, then `updated_after` when the time is not nil. -/
theorem EncodeToQuery_eq {LP Time : Type} (encodeToURLValues : Option LP → Values)
    (Format : Time → GoString → GoString) (p : SpacedRepetitionSystemListParams LP Time) :
    p.EncodeToQuery encodeToURLValues Format
      = Values.Encode (encodeToURLValues p.ListParams
          ++ p.IDs.toList.map (fun ids => (str "ids", joinIDs ids (str ",")))
          ++ p.UpdatedAfter.toList.map (fun t => (str "updated_after", Format t RFC3339))) := by
  unfold SpacedRepetitionSystemListParams.EncodeToQuery
  cases p.IDs <;> cases p.UpdatedAfter <;> simp [Values.Add]

/-- The entry under any key read back from the output of `EncodeToQuery`. -/
theorem ParseQuery_EncodeToQuery_get {LP Time : Type} (encodeToURLValues : Option LP → Values)
    (Format : Time → GoString → GoString) (p : SpacedRepetitionSystemListParams LP Time)
    (k : GoString) :
    (ParseQuery (p.EncodeToQuery encodeToURLValues Format)).1.get k
      = (encodeToURLValues p.ListParams).get k
          ++ Values.get (p.IDs.toList.map (fun ids => (str "ids", joinIDs ids (str ",")))) k
          ++ Values.get
              (p.UpdatedAfter.toList.map (fun t => (str "updated_after", Format t RFC3339))) k := by
  rw [EncodeToQuery_eq, ParseQuery_Encode]
  simp only [get_sortedPairs, get_append]

/-! ## The operations -/

/-- C1: for every `SpacedRepetitionSystemGetParams` whose ID is set, `SpacedRepetitionSystemGet`
makes exactly one dispatcher call: the recorded calls grow by the single request with method
`GET`, path `/v2/spaced_repetition_systems/` followed by the decimal rendering of the ID, an
empty query and no body; the outside world is the one left by that single call; and the
rendering reads back as the ID. -/
theorem C1_get_makes_one_call {σ ε Object Time : Type} [Inhabited Object]
    (c : Client σ ε (SpacedRepetitionSystem Object Time)) (id : ID) (s : ClientState σ) :
    (SpacedRepetitionSystemGet c (some { ID := some id }) s).2.RecordedRequests
        = s.RecordedRequests ++
          [{ Method := str "GET", Path := str "/v2/spaced_repetition_systems/" ++ Itoa id,
             Query := str "", Body := none }]
      ∧ (SpacedRepetitionSystemGet c (some { ID := some id }) s).2.world
        = (c.transport s.world
            { Method := str "GET", Path := str "/v2/spaced_repetition_systems/" ++ Itoa id,
              Query := str "", Body := none }
            { Object := default, Data := none }).1
      ∧ decimalValue (Itoa id) = some id := by
  refine ⟨rfl, rfl, decimalValue_Itoa id⟩

/-- C2: for every non-nil `SpacedRepetitionSystemListParams`, `SpacedRepetitionSystemList`
makes exactly one dispatcher call: the recorded calls grow by the single request with method
`GET`, path `/v2/spaced_repetition_systems` with no id segment, query `params.EncodeToQuery()`
and no body; the outside world is the one left by that single call. -/
theorem C2_list_makes_one_call {σ ε Object PageObject LP Time : Type}
    (encodeToURLValues : Option LP → Values) (Format : Time → GoString → GoString)
    (c : Client σ ε (SpacedRepetitionSystemPage Object PageObject Time))
    (p : SpacedRepetitionSystemListParams LP Time) (s : ClientState σ) :
    (SpacedRepetitionSystemList encodeToURLValues Format c (some p) s).2.RecordedRequests
        = s.RecordedRequests ++
          [{ Method := str "GET", Path := str "/v2/spaced_repetition_systems",
             Query := p.EncodeToQuery encodeToURLValues Format, Body := none }]
      ∧ (SpacedRepetitionSystemList encodeToURLValues Format c (some p) s).2.world
        = (c.transport s.world
            { Method := str "GET", Path := str "/v2/spaced_repetition_systems",
              Query := p.EncodeToQuery encodeToURLValues Format, Body := none }
            { PageObject := none, Data := [] }).1 := by
  exact ⟨rfl, rfl⟩

/-- C3: with no pagination parameters and no `UpdatedAfter`, a params object whose ID list is
set encodes to a query whose URL-unescaped text is exactly `ids=` followed by the decimal IDs
joined with commas in input order, and which reads back as the single key `ids` holding that
one value.  (The list need not even be non-empty.) -/
theorem C3_ids_under_one_key {LP Time : Type} (encodeToURLValues : Option LP → Values)
    (Format : Time → GoString → GoString) (p : SpacedRepetitionSystemListParams LP Time)
    (ids : List ID) (hbase : encodeToURLValues p.ListParams = []) (hids : p.IDs = some ids)
    (hua : p.UpdatedAfter = none) :
    QueryUnescape (p.EncodeToQuery encodeToURLValues Format)
        = .ok (str "ids=" ++ (str ",").intercalate (ids.map Itoa))
      ∧ ParseQuery (p.EncodeToQuery encodeToURLValues Format)
        = ([(str "ids", (str ",").intercalate (ids.map Itoa))], none) := by
  have hq : p.EncodeToQuery encodeToURLValues Format
      = Values.Encode [(str "ids", joinIDs ids (str ","))] := by
    rw [EncodeToQuery_eq, hbase, hids, hua]
    rfl
  have hlit : str "ids" ++ [ch '='] = str "ids=" := by decide
  constructor
  · rw [hq, Encode_eq_joinPairs, sortedPairs_singleton, joinPairs_cons]
    simp only [List.flatMap_nil, List.append_nil]
    rw [QueryUnescape_encodePair, hlit, joinIDs_eq_intercalate]
  · rw [hq, ParseQuery_Encode, sortedPairs_singleton, joinIDs_eq_intercalate]

/-- The witness of C3: the IDs 1, 2, 3 give `ids=1,2,3`. -/
theorem C3_ids_under_one_key_witness :
    QueryUnescape
        (SpacedRepetitionSystemListParams.EncodeToQuery noPagination renderedTime
          { ListParams := none, IDs := some [1, 2, 3], UpdatedAfter := none })
        = .ok (str "ids=" ++ (str ",").intercalate ([1, 2, 3].map Itoa))
      ∧ ParseQuery
        (SpacedRepetitionSystemListParams.EncodeToQuery noPagination renderedTime
          { ListParams := none, IDs := some [1, 2, 3], UpdatedAfter := none })
        = ([(str "ids", (str ",").intercalate ([1, 2, 3].map Itoa))], none) :=
  C3_ids_under_one_key noPagination renderedTime
    { ListParams := none, IDs := some [1, 2, 3], UpdatedAfter := none } [1, 2, 3] rfl rfl rfl

/-- C4: unset optional fields never appear in the output of `EncodeToQuery`.  When `IDs` is
nil the output read back has no `ids` entry, when `UpdatedAfter` is nil it has no
`updated_after` entry (the base parameters giving none), and when both are nil the output is
the encoding of the base parameters alone. -/
theorem C4_unset_fields_absent {LP Time : Type} (encodeToURLValues : Option LP → Values)
    (Format : Time → GoString → GoString) (p : SpacedRepetitionSystemListParams LP Time) :
    (p.IDs = none → (encodeToURLValues p.ListParams).get (str "ids") = [] →
        (ParseQuery (p.EncodeToQuery encodeToURLValues Format)).1.get (str "ids") = [])
      ∧ (p.UpdatedAfter = none →
          (encodeToURLValues p.ListParams).get (str "updated_after") = [] →
          (ParseQuery (p.EncodeToQuery encodeToURLValues Format)).1.get (str "updated_after")
            = [])
      ∧ (p.IDs = none → p.UpdatedAfter = none →
          p.EncodeToQuery encodeToURLValues Format
            = (encodeToURLValues p.ListParams).Encode) := by
  have hne : str "ids" ≠ str "updated_after" := by decide
  refine ⟨?_, ?_, ?_⟩
  · intro hids hbase
    rw [ParseQuery_EncodeToQuery_get, hbase, hids]
    cases p.UpdatedAfter <;> simp [Values.get, hne.symm]
  · intro hua hbase
    rw [ParseQuery_EncodeToQuery_get, hbase, hua]
    cases p.IDs <;> simp [Values.get, hne]
  · intro hids hua
    rw [EncodeToQuery_eq, hids, hua]
    simp

/-- The witness of C4: with every optional field nil and the base parameter `hidden=true`,
the output has neither key and is the encoding of the base parameters. -/
theorem C4_unset_fields_absent_witness :
    (ParseQuery (SpacedRepetitionSystemListParams.EncodeToQuery hiddenOnly renderedTime
        { ListParams := none, IDs := none, UpdatedAfter := none })).1.get (str "ids") = []
      ∧ (ParseQuery (SpacedRepetitionSystemListParams.EncodeToQuery hiddenOnly renderedTime
        { ListParams := none, IDs := none, UpdatedAfter := none })).1.get (str "updated_after")
          = []
      ∧ SpacedRepetitionSystemListParams.EncodeToQuery hiddenOnly renderedTime
          { ListParams := none, IDs := none, UpdatedAfter := none }
        = (hiddenOnly none).Encode :=
  ⟨(C4_unset_fields_absent hiddenOnly renderedTime
      { ListParams := none, IDs := none, UpdatedAfter := none }).1 rfl (by decide),
   (C4_unset_fields_absent hiddenOnly renderedTime
      { ListParams := none, IDs := none, UpdatedAfter := none }).2.1 rfl (by decide),
   (C4_unset_fields_absent hiddenOnly renderedTime
      { ListParams := none, IDs := none, UpdatedAfter := none }).2.2 rfl rfl⟩

/-- C5, as the code has it: for every `SpacedRepetitionSystemGetParams` whose ID is nil,
`SpacedRepetitionSystemGet` makes no dispatcher call (the state, with its recorded calls, is
unchanged), and it returns nothing to the caller: reading `*params.ID` panics with a nil
pointer dereference before the request is built. -/
theorem C5_nil_id_panics_before_dispatch {σ ε Object Time : Type} [Inhabited Object]
    (c : Client σ ε (SpacedRepetitionSystem Object Time)) (s : ClientState σ) :
    SpacedRepetitionSystemGet c (some { ID := none }) s = (.error .nilDereference, s) := by
  rfl

/-- C5 as stated fails: with a nil ID the call does not return an error value, or any value,
to the caller. -/
theorem C5_nil_id_returns_no_error :
    ¬ ∃ (obj : Option (SpacedRepetitionSystem Unit Unit)) (err : GoString),
        (SpacedRepetitionSystemGet (failingClient (SpacedRepetitionSystem Unit Unit))
          (some { ID := none }) initialState).1 = .ok (obj, some err) := by
  rintro ⟨obj, err, h⟩
  cases h

/-- C6, as the code has it: when the dispatcher returns an error, `SpacedRepetitionSystemGet`
and `SpacedRepetitionSystemList` return that error together with a non-nil pointer to the
destination object, in the state the dispatcher left it. -/
theorem C6_error_comes_with_destination {σ ε Object PageObject LP Time : Type}
    [Inhabited Object]
    (encodeToURLValues : Option LP → Values) (Format : Time → GoString → GoString)
    (cg : Client σ ε (SpacedRepetitionSystem Object Time))
    (cl : Client σ ε (SpacedRepetitionSystemPage Object PageObject Time))
    (id : ID) (p : SpacedRepetitionSystemListParams LP Time) (s : ClientState σ) (eg el : ε)
    (hg : (cg.transport s.world
            { Method := str "GET", Path := str "/v2/spaced_repetition_systems/" ++ Itoa id,
              Query := str "", Body := none }
            { Object := default, Data := none }).2.2 = some eg)
    (hl : (cl.transport s.world
            { Method := str "GET", Path := str "/v2/spaced_repetition_systems",
              Query := p.EncodeToQuery encodeToURLValues Format, Body := none }
            { PageObject := none, Data := [] }).2.2 = some el) :
    (SpacedRepetitionSystemGet cg (some { ID := some id }) s).1
        = .ok (some (cg.transport s.world
            { Method := str "GET", Path := str "/v2/spaced_repetition_systems/" ++ Itoa id,
              Query := str "", Body := none }
            { Object := default, Data := none }).2.1, some eg)
      ∧ (SpacedRepetitionSystemList encodeToURLValues Format cl (some p) s).1
        = .ok (some (cl.transport s.world
            { Method := str "GET", Path := str "/v2/spaced_repetition_systems",
              Query := p.EncodeToQuery encodeToURLValues Format, Body := none }
            { PageObject := none, Data := [] }).2.1, some el) := by
  constructor
  · rw [← hg]; rfl
  · rw [← hl]; rfl

/-- The witness of C6: against a dispatcher that fails with `boom`, both operations return
the error next to a non-nil, zero-valued object. -/
theorem C6_error_comes_with_destination_witness :
    (SpacedRepetitionSystemGet (failingClient (SpacedRepetitionSystem Unit GoString))
        (some { ID := some 7 }) initialState).1
        = .ok (some { Object := (), Data := none }, some (str "boom"))
      ∧ (SpacedRepetitionSystemList noPagination renderedTime
          (failingClient (SpacedRepetitionSystemPage Unit Unit GoString))
          (some { ListParams := none, IDs := some [1, 2, 3], UpdatedAfter := none })
          initialState).1
        = .ok (some { PageObject := none, Data := [] }, some (str "boom")) :=
  C6_error_comes_with_destination noPagination renderedTime
    (failingClient (SpacedRepetitionSystem Unit GoString))
    (failingClient (SpacedRepetitionSystemPage Unit Unit GoString)) 7
    { ListParams := none, IDs := some [1, 2, 3], UpdatedAfter := none } initialState
    (str "boom") (str "boom") rfl rfl

/-- C6 as stated fails: the dispatcher returns an error, yet `SpacedRepetitionSystemGet`
returns a Resource object next to it, not nil. -/
theorem C6_error_with_non_nil_object :
    (SpacedRepetitionSystemGet (failingClient (SpacedRepetitionSystem Unit Unit))
        (some { ID := some 7 }) initialState).1
      = .ok (some { Object := (), Data := none }, some (str "boom")) := by
  decide

/-- C7: for every valid input and whatever the dispatcher does, the error returned by
`SpacedRepetitionSystemGet` and by `SpacedRepetitionSystemList` is exactly the error of the
single dispatcher call (nil when that was nil), and exactly one call is recorded: nothing is
retried, nothing is swallowed. -/
theorem C7_dispatcher_error_is_returned {σ ε Object PageObject LP Time : Type}
    [Inhabited Object]
    (encodeToURLValues : Option LP → Values) (Format : Time → GoString → GoString)
    (cg : Client σ ε (SpacedRepetitionSystem Object Time))
    (cl : Client σ ε (SpacedRepetitionSystemPage Object PageObject Time))
    (id : ID) (p : SpacedRepetitionSystemListParams LP Time) (s : ClientState σ) :
    (∃ obj, (SpacedRepetitionSystemGet cg (some { ID := some id }) s).1
        = .ok (obj, (cg.transport s.world
            { Method := str "GET", Path := str "/v2/spaced_repetition_systems/" ++ Itoa id,
              Query := str "", Body := none }
            { Object := default, Data := none }).2.2))
      ∧ (SpacedRepetitionSystemGet cg (some { ID := some id }) s).2.RecordedRequests.length
        = s.RecordedRequests.length + 1
      ∧ (∃ obj, (SpacedRepetitionSystemList encodeToURLValues Format cl (some p) s).1
        = .ok (obj, (cl.transport s.world
            { Method := str "GET", Path := str "/v2/spaced_repetition_systems",
              Query := p.EncodeToQuery encodeToURLValues Format, Body := none }
            { PageObject := none, Data := [] }).2.2))
      ∧ (SpacedRepetitionSystemList encodeToURLValues Format cl (some p)
          s).2.RecordedRequests.length
        = s.RecordedRequests.length + 1 := by
  refine ⟨⟨_, rfl⟩, ?_, ⟨_, rfl⟩, ?_⟩
  · simp [SpacedRepetitionSystemGet, Client.request]
  · simp [SpacedRepetitionSystemList, Client.request]

/-- C8: for every `SpacedRepetitionSystemListParams` with `UpdatedAfter` set, the output of
`EncodeToQuery` reads back without error and carries, under the key `updated_after`, the time
formatted with the layout `time.RFC3339`, added exactly once after whatever the base
parameters hold under that key. -/
theorem C8_updated_after_once {LP Time : Type} (encodeToURLValues : Option LP → Values)
    (Format : Time → GoString → GoString) (p : SpacedRepetitionSystemListParams LP Time)
    (t : Time) (hua : p.UpdatedAfter = some t) :
    (ParseQuery (p.EncodeToQuery encodeToURLValues Format)).1.get (str "updated_after")
        = (encodeToURLValues p.ListParams).get (str "updated_after") ++ [Format t RFC3339]
      ∧ (ParseQuery (p.EncodeToQuery encodeToURLValues Format)).2 = none := by
  have hne : str "ids" ≠ str "updated_after" := by decide
  constructor
  · rw [ParseQuery_EncodeToQuery_get, hua]
    cases p.IDs <;> simp [Values.get, hne]
  · rw [EncodeToQuery_eq, ParseQuery_Encode]

/-- The witness of C8: a time rendered `2020-01-02T03:04:05Z` is read back under
`updated_after`, once. -/
theorem C8_updated_after_once_witness :
    (ParseQuery (SpacedRepetitionSystemListParams.EncodeToQuery noPagination renderedTime
        { ListParams := none, IDs := some [1, 2, 3],
          UpdatedAfter := some (str "2020-01-02T03:04:05Z") })).1.get (str "updated_after")
        = (noPagination none).get (str "updated_after")
            ++ [renderedTime (str "2020-01-02T03:04:05Z") RFC3339]
      ∧ (ParseQuery (SpacedRepetitionSystemListParams.EncodeToQuery noPagination renderedTime
        { ListParams := none, IDs := some [1, 2, 3],
          UpdatedAfter := some (str "2020-01-02T03:04:05Z") })).2 = none :=
  C8_updated_after_once noPagination renderedTime
    { ListParams := none, IDs := some [1, 2, 3],
      UpdatedAfter := some (str "2020-01-02T03:04:05Z") }
    (str "2020-01-02T03:04:05Z") rfl

/-- C9: the output of `EncodeToQuery` is determined by the entries held under each key and is
written in ascending key order.  It is the `&`-joined encoding of a list of pairs that holds
under every key what the base parameters, `ids` and `updated_after` hold, each key at most
the key of every later pair; and any map with the same entries, in whatever order they were
added, encodes to the same output. -/
theorem C9_output_sorted_and_order_free {LP Time : Type}
    (encodeToURLValues : Option LP → Values) (Format : Time → GoString → GoString)
    (p : SpacedRepetitionSystemListParams LP Time) :
    (∃ pairs : List (GoString × GoString),
        (∀ k, Values.get pairs k
          = Values.get (encodeToURLValues p.ListParams
              ++ p.IDs.toList.map (fun ids => (str "ids", joinIDs ids (str ",")))
              ++ p.UpdatedAfter.toList.map (fun t => (str "updated_after", Format t RFC3339)))
              k)
        ∧ pairs.Pairwise (fun e f => strLe e.1 f.1 = true)
        ∧ p.EncodeToQuery encodeToURLValues Format = joinPairs pairs)
      ∧ (∀ w : Values,
          (∀ k, w.get k
            = Values.get (encodeToURLValues p.ListParams
                ++ p.IDs.toList.map (fun ids => (str "ids", joinIDs ids (str ",")))
                ++ p.UpdatedAfter.toList.map
                    (fun t => (str "updated_after", Format t RFC3339))) k) →
          w.Encode = p.EncodeToQuery encodeToURLValues Format) := by
  constructor
  · refine ⟨_, fun k => get_sortedPairs _ k, sortedPairs_sorted _, ?_⟩
    rw [EncodeToQuery_eq, Encode_eq_joinPairs]
  · intro w hw
    rw [EncodeToQuery_eq]
    exact Encode_congr _ _ hw

/-- The witness of C9: with the base parameter `hidden=true` and the IDs 1, 2, 3, the map
built by adding `ids` first and `hidden` second encodes to the output of `EncodeToQuery`,
which is `hidden=true&ids=1%2C2%2C3`. -/
theorem C9_output_sorted_and_order_free_witness :
    Values.Encode (Values.Add (Values.Add [] (str "ids") (str "1,2,3")) (str "hidden") (str "true"))
        = SpacedRepetitionSystemListParams.EncodeToQuery hiddenOnly renderedTime
            { ListParams := none, IDs := some [1, 2, 3], UpdatedAfter := none }
      ∧ SpacedRepetitionSystemListParams.EncodeToQuery hiddenOnly renderedTime
            { ListParams := none, IDs := some [1, 2, 3], UpdatedAfter := none }
        = str "hidden=true&ids=1%2C2%2C3" :=
  ⟨(C9_output_sorted_and_order_free hiddenOnly renderedTime
      { ListParams := none, IDs := some [1, 2, 3], UpdatedAfter := none }).2
      (Values.Add (Values.Add [] (str "ids") (str "1,2,3")) (str "hidden") (str "true"))
      (fun k => by
        have h123 : joinIDs [1, 2, 3] (str ",") = str "1,2,3" := by decide
        have hk : str "hidden" ≠ str "ids" := by decide
        simp only [Values.Add, Values.get, hiddenOnly, Option.toList, List.map_cons,
          List.map_nil, List.nil_append, List.append_nil, List.cons_append, h123]
        by_cases h1 : str "ids" = k
        · subst h1
          simp [List.filter_cons, hk]
        · by_cases h2 : str "hidden" = k
          · subst h2
            simp [List.filter_cons, hk.symm]
          · simp [List.filter_cons, h1, h2]),
   by decide⟩

/-- C10: `EncodeToQuery` tells a nil `IDs` from an empty one.  With a non-nil list of length
zero the output read back holds one more value under `ids`, the empty string, and alone it is
`ids=`; with a nil list nothing is added under `ids`, and alone the output is empty. -/
theorem C10_empty_ids_differs_from_nil {LP Time : Type}
    (encodeToURLValues : Option LP → Values) (Format : Time → GoString → GoString)
    (p : SpacedRepetitionSystemListParams LP Time) :
    (p.IDs = some [] →
        (ParseQuery (p.EncodeToQuery encodeToURLValues Format)).1.get (str "ids")
          = (encodeToURLValues p.ListParams).get (str "ids") ++ [str ""])
      ∧ (p.IDs = none →
        (ParseQuery (p.EncodeToQuery encodeToURLValues Format)).1.get (str "ids")
          = (encodeToURLValues p.ListParams).get (str "ids"))
      ∧ (p.IDs = some [] → encodeToURLValues p.ListParams = [] → p.UpdatedAfter = none →
        p.EncodeToQuery encodeToURLValues Format = str "ids=")
      ∧ (p.IDs = none → encodeToURLValues p.ListParams = [] → p.UpdatedAfter = none →
        p.EncodeToQuery encodeToURLValues Format = str "") := by
  have hne : str "ids" ≠ str "updated_after" := by decide
  refine ⟨?_, ?_, ?_, ?_⟩
  · intro hids
    rw [ParseQuery_EncodeToQuery_get, hids]
    have hj : joinIDs [] (str ",") = str "" := rfl
    cases p.UpdatedAfter <;> simp [Values.get, hne.symm, hj]
  · intro hids
    rw [ParseQuery_EncodeToQuery_get, hids]
    cases p.UpdatedAfter <;> simp [Values.get, hne.symm]
  · intro hids hbase hua
    rw [EncodeToQuery_eq, hids, hbase, hua]
    show Values.Encode [(str "ids", joinIDs [] (str ","))] = str "ids="
    decide
  · intro hids hbase hua
    rw [EncodeToQuery_eq, hids, hbase, hua]
    show Values.Encode [] = str ""
    decide

/-- The witness of C10: alone, an empty non-nil list gives `ids=` and a nil list gives the
empty query. -/
theorem C10_empty_ids_differs_from_nil_witness :
    SpacedRepetitionSystemListParams.EncodeToQuery noPagination renderedTime
        { ListParams := none, IDs := some [], UpdatedAfter := none } = str "ids="
      ∧ (ParseQuery (SpacedRepetitionSystemListParams.EncodeToQuery noPagination renderedTime
          { ListParams := none, IDs := some [], UpdatedAfter := none })).1.get (str "ids")
        = (noPagination none).get (str "ids") ++ [str ""]
      ∧ SpacedRepetitionSystemListParams.EncodeToQuery noPagination renderedTime
        { ListParams := none, IDs := none, UpdatedAfter := none } = str "" :=
  ⟨(C10_empty_ids_differs_from_nil noPagination renderedTime
      { ListParams := none, IDs := some [], UpdatedAfter := none }).2.2.1 rfl rfl rfl,
   (C10_empty_ids_differs_from_nil noPagination renderedTime
      { ListParams := none, IDs := some [], UpdatedAfter := none }).1 rfl,
   (C10_empty_ids_differs_from_nil noPagination renderedTime
      { ListParams := none, IDs := none, UpdatedAfter := none }).2.2.2 rfl rfl rfl⟩

end Wanikaniapi
